/-
Verification of the incremental-delivery engine of the RSS-webhook program
(src/main.rs) against its natural-language specification.

The Rust source is shallowly embedded: external collaborators (HTTP fetch,
feed parsing, webhook dispatch, the RFC-2822 date parse from chrono, and
file I/O) are passed in as explicit parameters or results, and the core
logic — per-item date filtering, delivery-set selection, batching, the
watermark store and the per-cycle driver — is translated function by
function.  Rust `sort_by` / `sort_by_key` are stable sorts; they are
modelled by Mathlib's stable `List.insertionSort`, which agrees with any
stable sort on a total preorder.
-/
import Mathlib

namespace RSSWebhook

/-- Publish timestamps (`DateTime<FixedOffset>` in the source) form a total
order; they are modelled by `Int`. -/
abbrev Timestamp := Int

/-- One entry of a parsed feed (`rss::Item`, as used by the source): optional
title, link, description and publish-date string. -/
structure Item where
  title : Option String
  link : Option String
  description : Option String
  pub_date : Option String
deriving Repr, DecidableEq

/-- Lines 122-129 of main.rs: keep exactly the items whose `pub_date` is
present and parses, pairing each with its parsed timestamp, in feed order.
The date parse (`DateTime::parse_from_rfc2822`) is a collaborator, passed
as `parse`. -/
def itemsWithDates (parse : String → Option Timestamp) (items : List Item) :
    List (Item × Timestamp) :=
  items.filterMap fun it => (it.pub_date.bind parse).map fun d => (it, d)

/-- Ascending comparison used by `newer.sort_by_key(|(_, d)| *d)` (line 139). -/
def ascR (a b : Item × Timestamp) : Prop := a.2 ≤ b.2

/-- Descending comparison used by `sort_by(|a, b| b.1.cmp(&a.1))` (line 143). -/
def descR (a b : Item × Timestamp) : Prop := b.2 ≤ a.2

instance : DecidableRel ascR := fun a b => inferInstanceAs (Decidable (a.2 ≤ b.2))

instance : DecidableRel descR := fun a b => inferInstanceAs (Decidable (b.2 ≤ a.2))

instance : IsTotal (Item × Timestamp) ascR := ⟨fun a b => Int.le_total a.2 b.2⟩

instance : IsTrans (Item × Timestamp) ascR := ⟨fun _ _ _ h1 h2 => le_trans h1 h2⟩

instance : IsTotal (Item × Timestamp) descR := ⟨fun a b => (Int.le_total b.2 a.2).symm.symm⟩

instance : IsTrans (Item × Timestamp) descR := ⟨fun _ _ _ h1 h2 => le_trans h2 h1⟩

/-- Lines 133-148 of main.rs: the delivery-set selector.  With a stored
watermark, filter to strictly newer items and stably sort ascending; with
no stored watermark, stably sort descending, take the newest 3 and reverse
to ascending order. -/
def selectItems (parse : String → Option Timestamp) (items : List Item) :
    Option Timestamp → List (Item × Timestamp)
  | some w =>
    ((itemsWithDates parse items).filter fun p => decide (w < p.2)).insertionSort ascR
  | none =>
    (((itemsWithDates parse items).insertionSort descR).take 3).reverse

/-- Fuel-driven helper for `chunksOf`; the fuel is always instantiated with
the length of the list, which suffices for any chunk size ≥ 1. -/
def chunksOfAux (n : Nat) : Nat → List α → List (List α)
  | 0, _ => []
  | _ + 1, [] => []
  | fuel + 1, x :: xs => (x :: xs.take (n - 1)) :: chunksOfAux n fuel (xs.drop (n - 1))

/-- Rust slice `chunks(n)` (line 156, with n = 10): consecutive chunks of
size n, the last one possibly shorter. -/
def chunksOf (n : Nat) (l : List α) : List (List α) :=
  chunksOfAux n l.length l

/-- Lines 159-163 of main.rs: advance the running maximum timestamp to the
last timestamp of a dispatched batch when that is larger. -/
def batchAdvance (cur : Timestamp) : Option (Item × Timestamp) → Timestamp
  | some q => if cur < q.2 then q.2 else cur
  | none => cur

/-- Lines 156-166 of main.rs: dispatch each batch in order via the notifier
collaborator `dispatch`; a failed dispatch propagates an error immediately
(the `?` operator), otherwise the running maximum timestamp is advanced to
at least the last timestamp of the batch. -/
def runBatches (dispatch : List (Item × Timestamp) → Bool) :
    Timestamp → List (List (Item × Timestamp)) → Except Unit Timestamp
  | cur, [] => .ok cur
  | cur, c :: rest =>
    if dispatch c then runBatches dispatch (batchAdvance cur c.getLast?) rest
    else .error ()

/-- The watermark store (struct `AppState`, line 33): a mapping from feed
URL to the latest delivered timestamp, modelled as a function map. -/
structure AppState where
  last_seen : String → Option Timestamp

/-- Construction `AppState::new` (line 39): the empty mapping. -/
def AppState.new : AppState := ⟨fun _ => none⟩

/-- Operation `state.last_seen.insert(url, v)` (lines 168-170). -/
def AppState.insert (s : AppState) (k : String) (v : Timestamp) : AppState :=
  ⟨fun q => if q = k then some v else s.last_seen q⟩

/-- Operation `AppState::load` (lines 45-51): the file read yields
`readResult` (`none` models a missing file) and `deser` models
`serde_json::from_str` (`none` models a deserialization failure); any
failure silently falls back to the empty store.  The function is total:
no error is ever propagated. -/
def loadState (readResult : Option String) (deser : String → Option AppState) : AppState :=
  match readResult with
  | some data =>
    match deser data with
    | some st => st
    | none => AppState.new
  | none => AppState.new

/-- Function `fetch_and_process_feed` (lines 111-172).  The fetch and feed
parse collaborators are folded into `channelResult` (any of their failures
is an `error`); `parse` is the date codec and `dispatch` the notifier.
Returns the `Result<bool>` together with the resulting store. -/
def fetchAndProcessFeed (parse : String → Option Timestamp)
    (dispatch : List (Item × Timestamp) → Bool)
    (channelResult : Except Unit (List Item)) (url : String)
    (state : AppState) : Except Unit Bool × AppState :=
  match channelResult with
  | .error e => (.error e, state)
  | .ok items =>
    match selectItems parse items (state.last_seen url) with
    | [] => (.ok false, state)
    | p :: ps =>
      match runBatches dispatch ((state.last_seen url).getD p.2) (chunksOf 10 (p :: ps)) with
      | .error e => (.error e, state)
      | .ok v => (.ok true, state.insert url v)

/-- One poll cycle (the body of the loop in `main`, lines 88-105): process
each configured feed in order, accumulating the `state_changed` flag; a
feed error is logged and the cycle continues.  The returned Bool is the
flag deciding whether `state.save()` runs (line 103). -/
def runCycle (parse : String → Option Timestamp)
    (dispatch : String → List (Item × Timestamp) → Bool)
    (channels : String → Except Unit (List Item)) :
    List String → AppState → AppState × Bool
  | [], state => (state, false)
  | url :: rest, state =>
    let step := fetchAndProcessFeed parse (dispatch url) (channels url) url state
    let next := runCycle parse dispatch channels rest step.2
    (next.1, (match step.1 with | .ok true => true | _ => false) || next.2)

/-- Lines 187-196 of `send_discord_batch`: strip everything between angle
brackets with an inside/outside toggle; the brackets themselves are
dropped. -/
def stripTags : Bool → List Char → List Char
  | _, [] => []
  | _, '<' :: rest => stripTags true rest
  | _, '>' :: rest => stripTags false rest
  | true, _ :: rest => stripTags true rest
  | false, c :: rest => c :: stripTags false rest

/-- Line 198, `replace("&nbsp;", " ")`: left-to-right replacement of each
occurrence of the entity by a single space. -/
def replaceNbsp : List Char → List Char
  | '&' :: 'n' :: 'b' :: 's' :: 'p' :: ';' :: rest => ' ' :: replaceNbsp rest
  | c :: rest => c :: replaceNbsp rest
  | [] => []

/-- Line 198, `trim()`: drop leading and trailing whitespace. -/
def trimChars (cs : List Char) : List Char :=
  ((cs.dropWhile Char.isWhitespace).reverse.dropWhile Char.isWhitespace).reverse

/-- Rust `String::len`: the UTF-8 byte length. -/
def utf8Len (cs : List Char) : Nat := (cs.map Char.utf8Size).sum

/-- Rust byte slice `&s[0..n]` on a string with more than n bytes: walks the
characters consuming their UTF-8 widths; returns `none` — a panic — when
byte offset n falls strictly inside a character. -/
def sliceToByte : Nat → List Char → Option (List Char)
  | 0, _ => some []
  | _ + 1, [] => none
  | n + 1, c :: rest =>
    if c.utf8Size ≤ n + 1 then (sliceToByte (n + 1 - c.utf8Size) rest).map (c :: ·)
    else none

/-- Lines 187-203: the content sanitizer applied to a raw description, up to
and including the truncation `if final_desc.len() > 200 { format!("{}...",
&final_desc[0..200]) }`.  The result is `none` exactly when the byte slice
panics. -/
def sanitizeDescription (raw : List Char) : Option (List Char) :=
  let final_desc := trimChars (replaceNbsp (stripTags false raw))
  if 200 < utf8Len final_desc then
    (sliceToByte 200 final_desc).map (fun cs => cs ++ ['.', '.', '.'])
  else some final_desc

/-! ### Concrete inputs used for witnesses and counterexamples -/

instance {ε α : Type _} [DecidableEq ε] [DecidableEq α] : DecidableEq (Except ε α) := fun a b =>
  match a, b with
  | .ok x, .ok y =>
    if h : x = y then .isTrue (congrArg Except.ok h)
    else .isFalse fun hh => h (Except.ok.inj hh)
  | .ok _, .error _ => .isFalse fun hh => Except.noConfusion hh
  | .error _, .ok _ => .isFalse fun hh => Except.noConfusion hh
  | .error x, .error y =>
    if h : x = y then .isTrue (congrArg Except.error h)
    else .isFalse fun hh => h (Except.error.inj hh)

/-- Concrete date codec for witness inputs: the timestamp is the character
count of the date string. -/
def lenParse : String → Option Timestamp := fun s => some (Int.ofNat s.length)

/-- A date string of k characters, giving timestamp k under `lenParse`. -/
def dstr (k : Nat) : String := String.mk (List.replicate k 'x')

/-- An item carrying only a publish date. -/
def mkItem (d : String) : Item :=
  { title := none, link := none, description := none, pub_date := some d }

/-- An item with no publish date at all. -/
def noDateItem : Item :=
  { title := none, link := none, description := none, pub_date := none }

/-- A notifier that accepts every batch. -/
def alwaysTrue : List (Item × Timestamp) → Bool := fun _ => true

/-- Eleven datable items with timestamps 1..11: two batches of sizes 10
and 1 under the chunk size of the source. -/
def c1Items : List Item :=
  [mkItem (dstr 1), mkItem (dstr 2), mkItem (dstr 3), mkItem (dstr 4), mkItem (dstr 5),
   mkItem (dstr 6), mkItem (dstr 7), mkItem (dstr 8), mkItem (dstr 9), mkItem (dstr 10),
   mkItem (dstr 11)]

/-- The delivery set the selector produces from `c1Items` at watermark 0,
with its head split off. -/
def c1Tail : List (Item × Timestamp) :=
  [(mkItem (dstr 2), 2), (mkItem (dstr 3), 3), (mkItem (dstr 4), 4), (mkItem (dstr 5), 5),
   (mkItem (dstr 6), 6), (mkItem (dstr 7), 7), (mkItem (dstr 8), 8), (mkItem (dstr 9), 9),
   (mkItem (dstr 10), 10), (mkItem (dstr 11), 11)]

/-- A store holding watermark 0 for feed "f". -/
def c1State : AppState := AppState.new.insert "f" 0

/-- A notifier that accepts exactly the batches of 10 items: the first,
full batch succeeds and the trailing batch of one item fails. -/
def c1Dispatch : List (Item × Timestamp) → Bool := fun c => decide (c.length = 10)

/-- Three datable items with timestamps 3, 1, 2 in feed order. -/
def c2Items : List Item := [mkItem (dstr 3), mkItem (dstr 1), mkItem (dstr 2)]

/-- Four datable items with timestamps 1, 4, 2, 3 in feed order. -/
def c5Items : List Item := [mkItem (dstr 1), mkItem (dstr 4), mkItem (dstr 2), mkItem (dstr 3)]

/-- Two distinct items sharing the publish timestamp 2. -/
def c8A : Item :=
  { title := some "A", link := none, description := none, pub_date := some (dstr 2) }

/-- Second of the two tied items; it follows `c8A` in feed order. -/
def c8B : Item :=
  { title := some "B", link := none, description := none, pub_date := some (dstr 2) }

/-! ### Helper lemmas -/

theorem itemsWithDates_pub (parse : String → Option Timestamp) (items : List Item) :
    ∀ p ∈ itemsWithDates parse items, p.1.pub_date.bind parse = some p.2 := by
  intro p hp
  simp only [itemsWithDates, List.mem_filterMap] at hp
  obtain ⟨a, -, ha⟩ := hp
  rw [Option.map_eq_some'] at ha
  obtain ⟨d, hd, hpd⟩ := ha
  cases hpd
  exact hd

theorem select_subset (parse : String → Option Timestamp) (items : List Item)
    (ls : Option Timestamp) :
    ∀ p ∈ selectItems parse items ls, p ∈ itemsWithDates parse items := by
  intro p hp
  cases ls with
  | some w =>
    have h1 : p ∈ (itemsWithDates parse items).filter fun q => decide (w < q.2) := by
      simpa [selectItems, List.mem_insertionSort] using hp
    exact (List.mem_filter.mp h1).1
  | none =>
    have h1 : p ∈ ((itemsWithDates parse items).insertionSort descR).take 3 := by
      simpa [selectItems] using hp
    have h2 := List.take_subset 3 _ h1
    simpa [List.mem_insertionSort] using h2

theorem select_some_lt (parse : String → Option Timestamp) (items : List Item)
    (w : Timestamp) :
    ∀ p ∈ selectItems parse items (some w), w < p.2 := by
  intro p hp
  have h1 : p ∈ (itemsWithDates parse items).filter fun q => decide (w < q.2) := by
    simpa [selectItems, List.mem_insertionSort] using hp
  exact of_decide_eq_true (List.mem_filter.mp h1).2

theorem runBatches_le (d : List (Item × Timestamp) → Bool) :
    ∀ (chunks : List (List (Item × Timestamp))) (cur v : Timestamp),
      runBatches d cur chunks = .ok v → cur ≤ v := by
  intro chunks
  induction chunks with
  | nil =>
    intro cur v h
    simp only [runBatches] at h
    cases h
    exact le_refl _
  | cons c rest ih =>
    intro cur v h
    simp only [runBatches] at h
    by_cases hd : d c
    · rw [if_pos hd] at h
      refine le_trans ?_ (ih _ _ h)
      cases hgl : c.getLast? with
      | none => simp [batchAdvance]
      | some q => simp only [batchAdvance]; split <;> linarith
    · rw [if_neg hd] at h
      simp at h

theorem runBatches_getLast_le (d : List (Item × Timestamp) → Bool)
    (c : List (Item × Timestamp)) (rest : List (List (Item × Timestamp)))
    (cur v : Timestamp) (q : Item × Timestamp)
    (hq : c.getLast? = some q) (h : runBatches d cur (c :: rest) = .ok v) :
    q.2 ≤ v := by
  simp only [runBatches] at h
  by_cases hd : d c
  · rw [if_pos hd, hq] at h
    have h2 := runBatches_le d rest _ _ h
    simp only [batchAdvance] at h2
    by_cases hc : cur < q.2
    · rwa [if_pos hc] at h2
    · rw [if_neg hc] at h2
      linarith
  · rw [if_neg hd] at h
    simp at h

theorem fetchAndProcessFeed_spec (parse : String → Option Timestamp)
    (dispatch : List (Item × Timestamp) → Bool)
    (ch : Except Unit (List Item)) (url : String) (s : AppState) :
    (∃ e, fetchAndProcessFeed parse dispatch ch url s = (.error e, s)) ∨
    fetchAndProcessFeed parse dispatch ch url s = (.ok false, s) ∨
    (∃ v, fetchAndProcessFeed parse dispatch ch url s = (.ok true, s.insert url v) ∧
      ∀ w, s.last_seen url = some w → w < v) := by
  cases ch with
  | error e => exact .inl ⟨e, by simp [fetchAndProcessFeed]⟩
  | ok items =>
    cases hsel : selectItems parse items (s.last_seen url) with
    | nil => exact .inr (.inl (by simp [fetchAndProcessFeed, hsel]))
    | cons p ps =>
      cases hrb : runBatches dispatch ((s.last_seen url).getD p.2) (chunksOf 10 (p :: ps)) with
      | error e => exact .inl ⟨e, by simp [fetchAndProcessFeed, hsel, hrb]⟩
      | ok v =>
        refine .inr (.inr ⟨v, by simp [fetchAndProcessFeed, hsel, hrb], ?_⟩)
        intro w hw
        rw [hw] at hsel hrb
        simp only [Option.getD_some] at hrb
        have hne : (p :: ps.take 9) ≠ [] := by simp
        have hch : chunksOf 10 (p :: ps)
            = (p :: ps.take 9) :: chunksOfAux 10 ps.length (ps.drop 9) := rfl
        rw [hch] at hrb
        have hql : (p :: ps.take 9).getLast? = some ((p :: ps.take 9).getLast hne) :=
          List.getLast?_eq_getLast _ hne
        have h1 : ((p :: ps.take 9).getLast hne).2 ≤ v :=
          runBatches_getLast_le _ _ _ _ _ _ hql hrb
        have h2 : (p :: ps.take 9).getLast hne ∈ p :: ps := by
          have hm := List.getLast_mem hne
          exact (List.cons_subset_cons p (List.take_subset 9 ps)) hm
        have h3 : (p :: ps.take 9).getLast hne ∈ selectItems parse items (some w) := by
          rw [hsel]
          exact h2
        have h4 := select_some_lt parse items w _ h3
        linarith

theorem fetch_state_of_not_true (parse : String → Option Timestamp)
    (dispatch : List (Item × Timestamp) → Bool) (ch : Except Unit (List Item))
    (url : String) (s : AppState)
    (h : (fetchAndProcessFeed parse dispatch ch url s).1 ≠ .ok true) :
    (fetchAndProcessFeed parse dispatch ch url s).2 = s := by
  rcases fetchAndProcessFeed_spec parse dispatch ch url s with ⟨e, he⟩ | he | ⟨v, he, -⟩
  · rw [he]
  · rw [he]
  · rw [he] at h
    simp at h

theorem fetch_ok_true_insert (parse : String → Option Timestamp)
    (dispatch : List (Item × Timestamp) → Bool) (ch : Except Unit (List Item))
    (url : String) (s : AppState)
    (h : (fetchAndProcessFeed parse dispatch ch url s).1 = .ok true) :
    ∃ v, (fetchAndProcessFeed parse dispatch ch url s).2 = s.insert url v ∧
      ∀ w, s.last_seen url = some w → w < v := by
  rcases fetchAndProcessFeed_spec parse dispatch ch url s with ⟨e, he⟩ | he | ⟨v, he, hv⟩
  · rw [he] at h
    simp at h
  · rw [he] at h
    simp at h
  · exact ⟨v, by rw [he], hv⟩

theorem fetch_frame (parse : String → Option Timestamp)
    (dispatch : List (Item × Timestamp) → Bool) (ch : Except Unit (List Item))
    (url : String) (s : AppState) (k : String) (hk : k ≠ url) :
    (fetchAndProcessFeed parse dispatch ch url s).2.last_seen k = s.last_seen k := by
  rcases fetchAndProcessFeed_spec parse dispatch ch url s with ⟨e, he⟩ | he | ⟨v, he, -⟩
  · rw [he]
  · rw [he]
  · rw [he]
    simp [AppState.insert, hk]

theorem fetch_changed (parse : String → Option Timestamp)
    (dispatch : List (Item × Timestamp) → Bool) (ch : Except Unit (List Item))
    (url : String) (s : AppState)
    (h : (fetchAndProcessFeed parse dispatch ch url s).1 = .ok true) :
    (fetchAndProcessFeed parse dispatch ch url s).2.last_seen url ≠ s.last_seen url := by
  obtain ⟨v, hv, hlt⟩ := fetch_ok_true_insert parse dispatch ch url s h
  rw [hv]
  show (if url = url then some v else s.last_seen url) ≠ s.last_seen url
  rw [if_pos rfl]
  cases hu : s.last_seen url with
  | none => simp
  | some w =>
    have hw := hlt w hu
    simp only [ne_eq, Option.some.injEq]
    intro hvw
    rw [hvw] at hw
    exact lt_irrefl w hw

theorem fetch_mono (parse : String → Option Timestamp)
    (dispatch : List (Item × Timestamp) → Bool) (ch : Except Unit (List Item))
    (url : String) (s : AppState) (k : String) (w : Timestamp)
    (h : s.last_seen k = some w) :
    ∃ v, (fetchAndProcessFeed parse dispatch ch url s).2.last_seen k = some v ∧ w ≤ v := by
  rcases fetchAndProcessFeed_spec parse dispatch ch url s with ⟨e, he⟩ | he | ⟨v, he, hv⟩
  · exact ⟨w, by rw [he]; exact h, le_refl w⟩
  · exact ⟨w, by rw [he]; exact h, le_refl w⟩
  · by_cases hk : k = url
    · subst hk
      exact ⟨v, by rw [he]; simp [AppState.insert], le_of_lt (hv w h)⟩
    · exact ⟨w, by rw [he]; simp only [AppState.insert]; rw [if_neg hk]; exact h, le_refl w⟩

theorem runCycle_frame (parse : String → Option Timestamp)
    (dispatch : String → List (Item × Timestamp) → Bool)
    (channels : String → Except Unit (List Item)) :
    ∀ (feeds : List String) (s : AppState) (k : String), k ∉ feeds →
      (runCycle parse dispatch channels feeds s).1.last_seen k = s.last_seen k := by
  intro feeds
  induction feeds with
  | nil =>
    intro s k _
    rfl
  | cons url rest ih =>
    intro s k hk
    have hk1 : k ≠ url := fun h => hk (h ▸ List.mem_cons_self url rest)
    have hk2 : k ∉ rest := fun h => hk (List.mem_cons_of_mem _ h)
    show (runCycle parse dispatch channels rest
      (fetchAndProcessFeed parse (dispatch url) (channels url) url s).2).1.last_seen k
        = s.last_seen k
    rw [ih _ k hk2]
    exact fetch_frame parse (dispatch url) (channels url) url s k hk1

theorem runCycle_mono (parse : String → Option Timestamp)
    (dispatch : String → List (Item × Timestamp) → Bool)
    (channels : String → Except Unit (List Item)) :
    ∀ (feeds : List String) (s : AppState) (k : String) (w : Timestamp),
      s.last_seen k = some w →
      ∃ v, (runCycle parse dispatch channels feeds s).1.last_seen k = some v ∧ w ≤ v := by
  intro feeds
  induction feeds with
  | nil =>
    intro s k w h
    exact ⟨w, h, le_refl w⟩
  | cons url rest ih =>
    intro s k w h
    obtain ⟨v1, hv1, hwv1⟩ := fetch_mono parse (dispatch url) (channels url) url s k w h
    obtain ⟨v2, hv2, hv12⟩ := ih _ k v1 hv1
    exact ⟨v2, hv2, le_trans hwv1 hv12⟩

theorem runCycle_flag (parse : String → Option Timestamp)
    (dispatch : String → List (Item × Timestamp) → Bool)
    (channels : String → Except Unit (List Item)) :
    ∀ (feeds : List String) (s : AppState), feeds.Nodup →
      ((runCycle parse dispatch channels feeds s).2 = true ↔
        ∃ k, (runCycle parse dispatch channels feeds s).1.last_seen k ≠ s.last_seen k) := by
  intro feeds
  induction feeds with
  | nil =>
    intro s _
    simp [runCycle]
  | cons url rest ih =>
    intro s hnd
    obtain ⟨hurl, hrest⟩ := List.nodup_cons.mp hnd
    have hflag : (runCycle parse dispatch channels (url :: rest) s).2
        = ((match (fetchAndProcessFeed parse (dispatch url) (channels url) url s).1 with
            | .ok true => true | _ => false)
          || (runCycle parse dispatch channels rest
              (fetchAndProcessFeed parse (dispatch url) (channels url) url s).2).2) := rfl
    have hstate : (runCycle parse dispatch channels (url :: rest) s).1
        = (runCycle parse dispatch channels rest
            (fetchAndProcessFeed parse (dispatch url) (channels url) url s).2).1 := rfl
    by_cases hok : (fetchAndProcessFeed parse (dispatch url) (channels url) url s).1 = .ok true
    · constructor
      · intro _
        refine ⟨url, ?_⟩
        rw [hstate, runCycle_frame parse dispatch channels rest _ url hurl]
        exact fetch_changed parse (dispatch url) (channels url) url s hok
      · intro _
        rw [hflag, hok]
        rfl
    · have hs : (fetchAndProcessFeed parse (dispatch url) (channels url) url s).2 = s :=
        fetch_state_of_not_true parse (dispatch url) (channels url) url s hok
      have hb : (match (fetchAndProcessFeed parse (dispatch url) (channels url) url s).1 with
            | .ok true => true | _ => false) = false := by
        cases hft : (fetchAndProcessFeed parse (dispatch url) (channels url) url s).1 with
        | error e => rfl
        | ok b =>
          cases b with
          | true => exact absurd hft hok
          | false => rfl
      rw [hflag, hstate, hb, hs, Bool.false_or]
      exact ih s hrest

/-! ### Claim theorems -/

/-- C2: with a stored watermark W, the delivery set consists of exactly the
datable items with timestamp strictly greater than W (an item with
timestamp at most W is never selected), sorted ascending by timestamp,
with no cap on count. -/
theorem claim2_subsequent_poll_exact (parse : String → Option Timestamp)
    (items : List Item) (w : Timestamp) :
    (selectItems parse items (some w)).Perm
        ((itemsWithDates parse items).filter fun p => decide (w < p.2)) ∧
    (∀ p ∈ selectItems parse items (some w), w < p.2) ∧
    (selectItems parse items (some w)).Sorted ascR := by
  refine ⟨?_, select_some_lt parse items w, ?_⟩
  · exact List.perm_insertionSort ascR _
  · exact List.sorted_insertionSort ascR _

/-- C2 (witness): the subsequent-poll theorem evaluated at a concrete feed
with timestamps 3, 1, 2 and watermark 1. -/
theorem claim2_witness :
    (selectItems lenParse c2Items (some 1)).Perm
        ((itemsWithDates lenParse c2Items).filter fun p => decide ((1 : Timestamp) < p.2)) ∧
    (∀ p ∈ selectItems lenParse c2Items (some 1), (1 : Timestamp) < p.2) ∧
    (selectItems lenParse c2Items (some 1)).Sorted ascR :=
  claim2_subsequent_poll_exact lenParse c2Items 1

/-- C5: with no stored watermark and at least 3 datable items, exactly 3
items are selected, in ascending timestamp order, and they dominate (by
timestamp) every unselected datable item. -/
theorem claim5_first_run_cap (parse : String → Option Timestamp) (items : List Item)
    (h : 3 ≤ (itemsWithDates parse items).length) :
    (selectItems parse items none).length = 3 ∧
    (selectItems parse items none).Sorted ascR ∧
    ∃ rest, (itemsWithDates parse items).Perm (selectItems parse items none ++ rest) ∧
      ∀ p ∈ selectItems parse items none, ∀ q ∈ rest, q.2 ≤ p.2 := by
  have hsel : selectItems parse items none
      = (((itemsWithDates parse items).insertionSort descR).take 3).reverse := rfl
  have hPW : ((itemsWithDates parse items).insertionSort descR).Pairwise descR :=
    List.sorted_insertionSort descR _
  have hlen : ((itemsWithDates parse items).insertionSort descR).length
      = (itemsWithDates parse items).length := List.length_insertionSort descR _
  refine ⟨?_, ?_, ((itemsWithDates parse items).insertionSort descR).drop 3, ?_, ?_⟩
  · rw [hsel, List.length_reverse, List.length_take, hlen]
    omega
  · rw [hsel]
    show ((((itemsWithDates parse items).insertionSort descR).take 3).reverse).Pairwise ascR
    rw [List.pairwise_reverse]
    exact hPW.sublist (List.take_sublist 3 _)
  · rw [hsel]
    have h1 : List.Perm (itemsWithDates parse items)
        ((itemsWithDates parse items).insertionSort descR) :=
      (List.perm_insertionSort descR _).symm
    have h2 : List.Perm ((itemsWithDates parse items).insertionSort descR)
        ((((itemsWithDates parse items).insertionSort descR).take 3).reverse
          ++ ((itemsWithDates parse items).insertionSort descR).drop 3) := by
      conv_lhs =>
        rw [← List.take_append_drop 3 ((itemsWithDates parse items).insertionSort descR)]
      exact List.Perm.append_right _ (List.reverse_perm _).symm
    exact h1.trans h2
  · intro p hp q hq
    rw [hsel] at hp
    have hp2 : p ∈ ((itemsWithDates parse items).insertionSort descR).take 3 :=
      List.mem_reverse.mp hp
    have hPW2 : (((itemsWithDates parse items).insertionSort descR).take 3
        ++ ((itemsWithDates parse items).insertionSort descR).drop 3).Pairwise descR := by
      rw [List.take_append_drop]
      exact hPW
    exact (List.pairwise_append.mp hPW2).2.2 p hp2 q hq

/-- C5 (witness): the first-run cap evaluated at a concrete feed with four
datable items. -/
theorem claim5_witness :
    (selectItems lenParse c5Items none).length = 3 ∧
    (selectItems lenParse c5Items none).Sorted ascR ∧
    ∃ rest, (itemsWithDates lenParse c5Items).Perm (selectItems lenParse c5Items none ++ rest) ∧
      ∀ p ∈ selectItems lenParse c5Items none, ∀ q ∈ rest, q.2 ≤ p.2 :=
  claim5_first_run_cap lenParse c5Items (by decide)

/-- C6: an item whose publish date is absent or fails to parse is never in
any delivery set, regardless of the watermark state. -/
theorem claim6_undatable_excluded (parse : String → Option Timestamp)
    (items : List Item) (ls : Option Timestamp) (it : Item) (d : Timestamp)
    (h : it.pub_date.bind parse = none) :
    (it, d) ∉ selectItems parse items ls := by
  intro hmem
  have h2 := itemsWithDates_pub parse items _ (select_subset parse items ls _ hmem)
  have h3 : it.pub_date.bind parse = some d := h2
  rw [h] at h3
  cases h3

/-- C6 (witness): an item with no publish date is excluded from a concrete
delivery set. -/
theorem claim6_witness :
    (noDateItem, (5 : Timestamp)) ∉ selectItems lenParse [mkItem (dstr 1), noDateItem] (some 0) :=
  claim6_undatable_excluded lenParse [mkItem (dstr 1), noDateItem] (some 0) noDateItem 5 rfl

/-- C8 (counterexample): two distinct items tied at timestamp 2, in feed
order `c8A` then `c8B`, are delivered in the order `c8B` then `c8A` by the
first-ever-poll path — the descending stable sort followed by reversal
inverts the feed-source order among tied items. -/
theorem claim8_counterexample :
    selectItems lenParse [c8A, c8B] none = [(c8B, 2), (c8A, 2)] ∧ c8A ≠ c8B :=
  ⟨by decide, by decide⟩

/-- C8 (amended): in the subsequent-poll path, ties in timestamp are stable
relative to feed-source order: for every timestamp t, the tied items appear
in the delivery list exactly as they appear (in feed order) among the
datable items newer than the watermark. -/
theorem claim8_amended_tie_stability (parse : String → Option Timestamp)
    (items : List Item) (w t : Timestamp) :
    ((selectItems parse items (some w)).filter fun p => decide (p.2 = t))
      = (((itemsWithDates parse items).filter fun p => decide (w < p.2)).filter
          fun p => decide (p.2 = t)) := by
  have hpw : ((((itemsWithDates parse items).filter fun p => decide (w < p.2)).filter
      fun p => decide (p.2 = t)).Pairwise ascR) := by
    apply List.pairwise_of_forall_mem_list
    intro a ha b hb
    have ha2 : a.2 = t := of_decide_eq_true (List.mem_filter.mp ha).2
    have hb2 : b.2 = t := of_decide_eq_true (List.mem_filter.mp hb).2
    show a.2 ≤ b.2
    rw [ha2, hb2]
  have hsub2 : List.Sublist
      (((itemsWithDates parse items).filter fun p => decide (w < p.2)).filter
        fun p => decide (p.2 = t))
      (((itemsWithDates parse items).filter fun p => decide (w < p.2)).insertionSort ascR) := by
    apply List.sublist_insertionSort
    · exact hpw
    · exact List.filter_sublist _
  have hsub3 := List.Sublist.filter (fun p => decide (p.2 = t)) hsub2
  have hself : ((((itemsWithDates parse items).filter fun p => decide (w < p.2)).filter
      fun p => decide (p.2 = t)).filter fun p => decide (p.2 = t))
      = (((itemsWithDates parse items).filter fun p => decide (w < p.2)).filter
          fun p => decide (p.2 = t)) := by
    rw [List.filter_eq_self]
    intro a ha
    exact (List.mem_filter.mp ha).2
  rw [hself] at hsub3
  have hperm := (List.perm_insertionSort ascR
      ((itemsWithDates parse items).filter fun p => decide (w < p.2))).filter
      fun p => decide (p.2 = t)
  exact (hsub3.eq_of_length hperm.length_eq.symm).symm

/-- C9: loading the persisted store from a missing or undeserializable
source never propagates an error (the load operation is total) and yields
the empty mapping. -/
theorem claim9_load_resilient (readResult : Option String)
    (deser : String → Option AppState)
    (h : readResult = none ∨ ∃ d, readResult = some d ∧ deser d = none) :
    loadState readResult deser = AppState.new := by
  rcases h with h | ⟨d, h1, h2⟩
  · rw [h]
    rfl
  · rw [h1]
    show (match deser d with | some st => st | none => AppState.new) = AppState.new
    rw [h2]

/-- C9 (witness): loading from a missing source yields the empty store. -/
theorem claim9_witness : loadState none (fun _ => none) = AppState.new :=
  claim9_load_resilient none (fun _ => none) (Or.inl rfl)

/-- C3: across one full cycle, every feed watermark that was present is
still present afterwards with a value at least as large — the stored
watermark never moves backward. -/
theorem claim3_watermark_monotone (parse : String → Option Timestamp)
    (dispatch : String → List (Item × Timestamp) → Bool)
    (channels : String → Except Unit (List Item)) (feeds : List String)
    (s : AppState) (k : String) (w : Timestamp)
    (h : s.last_seen k = some w) :
    ∃ v, (runCycle parse dispatch channels feeds s).1.last_seen k = some v ∧ w ≤ v :=
  runCycle_mono parse dispatch channels feeds s k w h

/-- C3 (witness): monotonicity of a concrete cycle over one erroring feed,
starting from watermark 3 for feed "f". -/
theorem claim3_witness :
    ∃ v, (runCycle lenParse (fun _ => alwaysTrue) (fun _ => .error ()) ["g"]
        (AppState.new.insert "f" 3)).1.last_seen "f" = some v ∧ (3 : Timestamp) ≤ v :=
  claim3_watermark_monotone lenParse (fun _ => alwaysTrue) (fun _ => .error ()) ["g"]
    (AppState.new.insert "f" 3) "f" 3 (by decide)

/-- C1 (counterexample): eleven items with timestamps 1..11 over watermark 0
form two batches (sizes 10 and 1); the first batch dispatch succeeds and the
second fails.  The driver reports the error, but the stored watermark for
the feed is still 0 — it does not reflect progress through the end of the
last successful batch (timestamp 10), because the watermark write at lines
168-170 is only reached after every batch succeeded. -/
theorem claim1_counterexample :
    (fetchAndProcessFeed lenParse c1Dispatch (.ok c1Items) "f" c1State).1 = .error () ∧
    (fetchAndProcessFeed lenParse c1Dispatch (.ok c1Items) "f" c1State).2.last_seen "f"
      = some 0 ∧
    (fetchAndProcessFeed lenParse c1Dispatch (.ok c1Items) "f" c1State).2.last_seen "f"
      ≠ some 10 :=
  ⟨by decide, by decide, by decide⟩

/-- C1 (amended): a dispatch failure for one batch aborts the remaining
batches for that feed this cycle and the driver reports an error, but the
stored watermark is left unchanged from before the cycle: progress from
earlier successful batches is not committed, since the watermark is written
only after every batch of the cycle succeeds. -/
theorem claim1_partial_failure_aborts :
    (∀ (dispatch : List (Item × Timestamp) → Bool) (cur : Timestamp) c rest,
      dispatch c = false → runBatches dispatch cur (c :: rest) = .error ()) ∧
    (∀ (parse : String → Option Timestamp) (dispatch : List (Item × Timestamp) → Bool)
      (items : List Item) (url : String) (s : AppState) (p : Item × Timestamp)
      (ps : List (Item × Timestamp)),
      selectItems parse items (s.last_seen url) = p :: ps →
      runBatches dispatch ((s.last_seen url).getD p.2) (chunksOf 10 (p :: ps)) = .error () →
      fetchAndProcessFeed parse dispatch (.ok items) url s = (.error (), s)) := by
  constructor
  · intro dispatch cur c rest h
    simp [runBatches, h]
  · intro parse dispatch items url s p ps hsel hrb
    simp [fetchAndProcessFeed, hsel, hrb]

/-- C1 (witness): the amended theorem evaluated at the two-batch input of
the counterexample. -/
theorem claim1_witness :
    runBatches c1Dispatch 0 [[(mkItem (dstr 1), 1)]] = .error () ∧
    fetchAndProcessFeed lenParse c1Dispatch (.ok c1Items) "f" c1State = (.error (), c1State) :=
  ⟨claim1_partial_failure_aborts.1 c1Dispatch 0 [(mkItem (dstr 1), 1)] [] (by decide),
   claim1_partial_failure_aborts.2 lenParse c1Dispatch c1Items "f" c1State
     (mkItem (dstr 1), 1) c1Tail (by decide) (by decide)⟩

/-- C7: if the delivery set for a feed is empty the driver returns
changed=false and leaves the store untouched; and across a cycle over
distinct feeds, the save flag is set if and only if at least one feed
watermark differs from before the cycle. -/
theorem claim7_empty_noop_and_persist_iff :
    (∀ (parse : String → Option Timestamp) (dispatch : List (Item × Timestamp) → Bool)
      (items : List Item) (url : String) (s : AppState),
      selectItems parse items (s.last_seen url) = [] →
      fetchAndProcessFeed parse dispatch (.ok items) url s = (.ok false, s)) ∧
    (∀ (parse : String → Option Timestamp)
      (dispatch : String → List (Item × Timestamp) → Bool)
      (channels : String → Except Unit (List Item)) (feeds : List String) (s : AppState),
      feeds.Nodup →
      ((runCycle parse dispatch channels feeds s).2 = true ↔
        ∃ k, (runCycle parse dispatch channels feeds s).1.last_seen k ≠ s.last_seen k)) := by
  constructor
  · intro parse dispatch items url s hsel
    simp [fetchAndProcessFeed, hsel]
  · intro parse dispatch channels feeds s hnd
    exact runCycle_flag parse dispatch channels feeds s hnd

/-- C7 (witness): the empty-set no-op on an itemless feed, and the
persist-iff-changed equivalence on a concrete one-feed cycle whose fetch
fails. -/
theorem claim7_witness :
    fetchAndProcessFeed lenParse alwaysTrue (.ok []) "u" AppState.new
      = (.ok false, AppState.new) ∧
    (((runCycle lenParse (fun _ => alwaysTrue) (fun _ => .error ()) ["a"] AppState.new).2
        = true) ↔
      ∃ k, (runCycle lenParse (fun _ => alwaysTrue) (fun _ => .error ()) ["a"]
          AppState.new).1.last_seen k ≠ AppState.new.last_seen k) :=
  ⟨claim7_empty_noop_and_persist_iff.1 lenParse alwaysTrue [] "u" AppState.new (by decide),
   claim7_empty_noop_and_persist_iff.2 lenParse (fun _ => alwaysTrue) (fun _ => .error ())
     ["a"] AppState.new (by decide)⟩

/-- C10: whenever processing a feed does not return Ok(true) — a fetch or
feed-parse error, a dispatch failure of any batch (also after earlier
successful batches), or an empty delivery set — the store is exactly the
store from before the call; and on an Ok(true) return the store is the old
store with exactly the one entry for that feed written. -/
theorem claim10_error_leaves_watermark (parse : String → Option Timestamp)
    (dispatch : List (Item × Timestamp) → Bool) (ch : Except Unit (List Item))
    (url : String) (s : AppState) :
    ((fetchAndProcessFeed parse dispatch ch url s).1 ≠ .ok true →
      (fetchAndProcessFeed parse dispatch ch url s).2 = s) ∧
    ((fetchAndProcessFeed parse dispatch ch url s).1 = .ok true →
      ∃ v, (fetchAndProcessFeed parse dispatch ch url s).2 = s.insert url v) :=
  ⟨fetch_state_of_not_true parse dispatch ch url s,
   fun h => (fetch_ok_true_insert parse dispatch ch url s h).imp fun _ hv => hv.1⟩

/-- C10 (witness): a failing fetch leaves the store untouched, and a fully
successful one-item feed writes exactly its own entry. -/
theorem claim10_witness :
    (fetchAndProcessFeed lenParse alwaysTrue (.error ()) "u" AppState.new).2 = AppState.new ∧
    ∃ v, (fetchAndProcessFeed lenParse alwaysTrue (.ok [mkItem (dstr 1)]) "u" AppState.new).2
      = AppState.new.insert "u" v :=
  ⟨(claim10_error_leaves_watermark lenParse alwaysTrue (.error ()) "u" AppState.new).1
      (by decide),
   (claim10_error_leaves_watermark lenParse alwaysTrue (.ok [mkItem (dstr 1)]) "u"
      AppState.new).2 (by decide)⟩

set_option maxRecDepth 10000 in
/-- C4 (code evaluated at the failing input): a cleaned description of 199
ASCII characters followed by the two-byte character 'é' has byte length 201,
so the truncation branch runs; the byte slice `&final_desc[0..200]` cuts
strictly inside the final character, which in Rust is a panic — modelled
here as `none`.  Truncation therefore operates on raw byte offsets, not
character boundaries, contradicting the claim. -/
theorem claim4_truncation_panics :
    sanitizeDescription (List.replicate 199 'a' ++ ['é']) = none := by
  decide
